import Mathlib

set_option linter.unusedVariables false

/-!
# Verification of `readingData.py`

Shallow embedding of the repository's single script, `src/readingData.py`:

```python
dataPath = './Dataset.hf/train/data-00000-of-00001.arrow'
with open(dataPath, 'rb') as f:
    reader = pa.ipc.RecordBatchStreamReader(f)
    print(reader)
    table = reader.read_all()
    print(table.to_pandas())
    df = table.to_pandas()
    df.to_csv("./DataBase.csv")
```

The script opens a stream-framed Arrow archive, materializes all record
batches into one table (`read_all`), converts the table to a pandas
DataFrame (`to_pandas`), and serializes the DataFrame to CSV at a fixed
destination path (`to_csv`, with all-default options: comma delimiter,
`QUOTE_MINIMAL` double-quote quoting, header row, leading unnamed
integer index starting at 0, one line terminator after every record).

Embedding choices:
* Cell values and column names are modelled by their textual form
  (`List Char`), i.e. by the string the CSV writer emits for them; the
  archive's logical content is a schema (list of column names) and a
  list of record batches, each a list of rows, each a list of cells.
* The CSV text is a `List Char`; quoting follows Python's `csv` module
  with `QUOTE_MINIMAL`: a field is quoted iff it contains the delimiter,
  the quote character, or a line-break character, quote characters being
  doubled inside quoted fields.
* The surrounding process (file handles, console prints) is modelled by
  an event trace and by an explicit file-state transformer.
-/

/-- A CSV field / cell value / column name, modelled as its character
sequence. -/
abbrev Cell := List Char

/-- A stream-framed record-batch archive: one schema shared by a list of
record batches, each batch being a list of rows, each row a list of cell
values (in schema column order). -/
structure Archive where
  schema : List Cell
  batches : List (List (List Cell))
deriving DecidableEq

/-- Well-formedness of an archive: every row of every record batch has
exactly one cell per schema column. -/
def Archive.WellFormed (a : Archive) : Prop :=
  ∀ b ∈ a.batches, ∀ r ∈ b, r.length = a.schema.length

instance (a : Archive) : Decidable a.WellFormed := by
  unfold Archive.WellFormed
  infer_instance

/-- The in-memory table materialized from the archive. -/
structure Table where
  columns : List Cell
  rows : List (List Cell)
deriving DecidableEq

/-- `reader.read_all()` (line 11): concatenate all record batches, in
archive order and, within each batch, in in-batch row order, into one
table sharing the archive's schema. -/
def read_all (a : Archive) : Table :=
  { columns := a.schema, rows := a.batches.flatten }

/-- A pandas DataFrame with the default `RangeIndex`: same columns and
rows as the table it came from, plus the implicit positional index
0, 1, 2, … rendered by `to_csv`. -/
structure DataFrame where
  columns : List Cell
  rows : List (List Cell)
deriving DecidableEq

/-- `table.to_pandas()` (line 15): a row-oriented view with the same
columns and rows. -/
def to_pandas (t : Table) : DataFrame :=
  { columns := t.columns, rows := t.rows }

/-- Is `c` a character that forces CSV quoting under `QUOTE_MINIMAL`:
the delimiter, the quote character, or a line break. -/
def specialChar (c : Char) : Bool :=
  c == ',' || c == '"' || c == '\n' || c == '\r'

/-- Does the field need quoting under `QUOTE_MINIMAL`? -/
def needsQuote (s : Cell) : Bool :=
  s.any specialChar

/-- Double every quote character of the field body (the escaping used
inside a quoted CSV field). -/
def escQuotes : Cell → List Char
  | [] => []
  | c :: rest =>
    if c = '"' then '"' :: '"' :: escQuotes rest else c :: escQuotes rest

/-- Serialize one field: wrap in quotes (with inner quotes doubled) iff
it contains a special character, else emit it verbatim. -/
def escapeField (s : Cell) : List Char :=
  if needsQuote s then '"' :: (escQuotes s ++ ['"']) else s

/-- Join already-escaped fields with the comma delimiter. -/
def joinComma : List (List Char) → List Char
  | [] => []
  | [f] => f
  | f :: g :: rest => f ++ ',' :: joinComma (g :: rest)

/-- Serialize one CSV record: delimiter-joined escaped fields followed by
the line terminator. -/
def renderRecord (fs : List Cell) : List Char :=
  joinComma (fs.map escapeField) ++ ['\n']

/-- Serialize a list of records as CSV text. -/
def renderCSV (rs : List (List Cell)) : List Char :=
  (rs.map renderRecord).flatten

/-- Decimal digits of `n`, most significant first, accumulated with a
fuel argument (the fuel `n + 1` always suffices). -/
def natCharsCore : Nat → Nat → List Char → List Char
  | 0, _, acc => acc
  | fuel + 1, n, acc =>
    let d := Char.ofNat (48 + n % 10)
    if n < 10 then d :: acc else natCharsCore fuel (n / 10) (d :: acc)

/-- The decimal rendering of a row index, as pandas writes the values of
the default `RangeIndex`. -/
def natChars (n : Nat) : List Char :=
  natCharsCore (n + 1) n []

/-- The logical records written by `df.to_csv` (line 16) with all-default
options: a header record whose first field is the empty index-column
name followed by the column names, then one record per row carrying the
zero-based positional index followed by the row's cells. -/
def csvRecords (df : DataFrame) : List (List Cell) :=
  (([] : Cell) :: df.columns) ::
    (df.rows.enum.map fun p => natChars p.1 :: p.2)

/-- `df.to_csv` (line 16): the CSV text written to the destination. -/
def to_csv (df : DataFrame) : List Char :=
  renderCSV (csvRecords df)

/-- The full data path of the script on a well-formed archive: bytes of
the destination file as a function of the source archive. -/
def output (a : Archive) : List Char :=
  to_csv (to_pandas (read_all a))

/-! ## A standard CSV reader

Modelled from the spec: the spec's round-trip property speaks of
"reading the produced CSV back into a table" with "standard CSV quoting
(double-quote quoting of fields containing the delimiter, newline, or
quote character)"; no reader exists in the repository, so a standard
RFC-4180-style reader is defined here.  A quoted field runs to the next
undoubled quote; an unquoted field runs to the next delimiter or line
terminator; records are separated by the line terminator. -/

/-- Read the body of a quoted field, the opening quote already consumed:
returns the field and the characters after the closing quote, or `none`
when the quote is unterminated. -/
def parseQuoted : List Char → Option (Cell × List Char)
  | [] => none
  | c :: rest =>
    if c = '"' then
      match rest with
      | [] => some ([], [])
      | c₂ :: rest₂ =>
        if c₂ = '"' then
          (parseQuoted rest₂).map fun p => ('"' :: p.1, p.2)
        else some ([], c₂ :: rest₂)
    else (parseQuoted rest).map fun p => (c :: p.1, p.2)

/-- Read an unquoted field: everything up to (excluding) the next
delimiter or line terminator. -/
def parseUnquoted : List Char → Cell × List Char
  | [] => ([], [])
  | c :: rest =>
    if c = ',' ∨ c = '\n' then ([], c :: rest)
    else
      let p := parseUnquoted rest
      (c :: p.1, p.2)

/-- Read one field, quoted or unquoted according to its first
character. -/
def parseField (cs : List Char) : Cell × List Char :=
  match cs with
  | [] => ([], [])
  | c :: rest =>
    if c = '"' then (parseQuoted rest).getD ([], [])
    else parseUnquoted (c :: rest)

/-- Read one record: fields separated by the delimiter, terminated by
the line terminator or the end of input.  `fuel` bounds the number of
fields (the input's length always suffices). -/
def parseRecordAux : Nat → List Char → List Cell × List Char
  | 0, cs => ([], cs)
  | fuel + 1, cs =>
    let p := parseField cs
    match p.2 with
    | [] => ([p.1], [])
    | c :: rest =>
      if c = ',' then
        let q := parseRecordAux fuel rest
        (p.1 :: q.1, q.2)
      else if c = '\n' then ([p.1], rest)
      else ([p.1], c :: rest)

/-- Read all records of a CSV text.  `fuel` bounds the number of records
(the input's length always suffices). -/
def parseCSVAux : Nat → List Char → List (List Cell)
  | 0, _ => []
  | fuel + 1, cs =>
    if cs.isEmpty then []
    else
      let p := parseRecordAux cs.length cs
      p.1 :: parseCSVAux fuel p.2

/-- Read a CSV text into its list of records. -/
def parseCSV (cs : List Char) : List (List Cell) :=
  parseCSVAux cs.length cs

/-- Modelled from the spec: reading the produced CSV back into a table,
the header record giving the columns and the remaining records the
rows. -/
def csvToTable (cs : List Char) : Table :=
  match parseCSV cs with
  | [] => { columns := [], rows := [] }
  | h :: rs => { columns := h, rows := rs }

/-- Dropping the leading (index) column of a table. -/
def dropIndexCol (t : Table) : Table :=
  { columns := t.columns.drop 1, rows := t.rows.map (List.drop 1) }

/-! ## The reader inverts the writer -/

/-- A character of a field that does not need quoting is neither the
delimiter, nor a quote, nor a line break. -/
theorem not_special_of_needsQuote_false {s : Cell} (h : needsQuote s = false)
    {c : Char} (hc : c ∈ s) :
    c ≠ ',' ∧ c ≠ '"' ∧ c ≠ '\n' ∧ c ≠ '\r' := by
  have := List.any_eq_false.mp h c hc
  simpa [specialChar, not_or, and_assoc] using this

/-- Reading a quoted body: the escaped field followed by its closing
quote and a remainder not starting with a quote parses back to the
field. -/
theorem parseQuoted_escQuotes (s : Cell) (rest : List Char)
    (hr : rest.head? ≠ some '"') :
    parseQuoted (escQuotes s ++ '"' :: rest) = some (s, rest) := by
  induction s with
  | nil =>
    cases rest with
    | nil => simp [escQuotes, parseQuoted]
    | cons c₂ r₂ =>
      have hc₂ : ¬ c₂ = '"' := by
        intro h; exact hr (by simp [h])
      simp [escQuotes, parseQuoted, hc₂]
  | cons c s ih =>
    by_cases hc : c = '"'
    · subst hc
      simp [escQuotes, parseQuoted, ih]
    · have hesc : escQuotes (c :: s) = c :: escQuotes s := by
        simp [escQuotes, hc]
      rw [hesc, List.cons_append, parseQuoted.eq_def]
      simp only []
      rw [if_neg hc, ih]
      rfl

/-- The remainder after a completed field starts with a delimiter, a
line terminator, or is the end of input. -/
def sepStart (rest : List Char) : Prop :=
  rest.head? = none ∨ rest.head? = some ',' ∨ rest.head? = some '\n'

/-- Reading an unquoted body: a field free of delimiters and line
terminators followed by a separator parses back to the field. -/
theorem parseUnquoted_exact (s : Cell) (rest : List Char)
    (hs : ∀ c ∈ s, c ≠ ',' ∧ c ≠ '\n') (hr : sepStart rest) :
    parseUnquoted (s ++ rest) = (s, rest) := by
  induction s with
  | nil =>
    cases rest with
    | nil => simp [parseUnquoted]
    | cons c r =>
      rcases hr with h | h | h
      · simp at h
      · have : c = ',' := by simpa using h
        simp [parseUnquoted, this]
      · have : c = '\n' := by simpa using h
        simp [parseUnquoted, this]
  | cons c s ih =>
    have hc := hs c (by simp)
    have hrec := ih (fun d hd => hs d (by simp [hd]))
    simp [parseUnquoted, hc.1, hc.2, hrec]

/-- Reading one escaped field followed by a separator recovers the
field. -/
theorem parseField_escapeField (f : Cell) (rest : List Char)
    (hr : sepStart rest) :
    parseField (escapeField f ++ rest) = (f, rest) := by
  by_cases hq : needsQuote f
  · have hr' : rest.head? ≠ some '"' := by
      rcases hr with h | h | h <;> simp [h]
    have hbody := parseQuoted_escQuotes f rest hr'
    simp only [escapeField, hq, if_pos, List.cons_append, List.append_assoc,
      List.singleton_append]
    simp [parseField, hbody]
  · have hq' : needsQuote f = false := by simpa using hq
    have hfree : ∀ c ∈ f, c ≠ ',' ∧ c ≠ '\n' := fun c hc => by
      have h := not_special_of_needsQuote_false hq' hc
      exact ⟨h.1, h.2.2.1⟩
    have hunq := parseUnquoted_exact f rest hfree hr
    cases f with
    | nil =>
      simp only [escapeField, hq', Bool.false_eq_true, if_neg, List.nil_append]
      cases rest with
      | nil => simp [parseField]
      | cons c r =>
        rcases hr with h | h | h
        · simp at h
        · have hc : c = ',' := by simpa using h
          simp [parseField, hc, parseUnquoted]
        · have hc : c = '\n' := by simpa using h
          simp [parseField, hc, parseUnquoted]
    | cons c f' =>
      have hcq : c ≠ '"' :=
        (not_special_of_needsQuote_false hq' (by simp)).2.1
      simp only [escapeField, hq', Bool.false_eq_true, if_neg,
        List.cons_append]
      simpa [parseField, hcq] using hunq

/-- Reading one rendered record recovers its (nonempty) field list and
leaves exactly the remainder, given enough fuel. -/
theorem parseRecordAux_renderRecord (fs : List Cell) (rest : List Char)
    (fuel : Nat) (hne : fs ≠ []) (hfuel : fs.length ≤ fuel) :
    parseRecordAux fuel (renderRecord fs ++ rest) = (fs, rest) := by
  induction fs generalizing fuel rest with
  | nil => exact absurd rfl hne
  | cons f fs ih =>
    obtain ⟨fuel, rfl⟩ : ∃ k, fuel = k + 1 := by
      cases fuel with
      | zero => simp at hfuel
      | succ k => exact ⟨k, rfl⟩
    cases fs with
    | nil =>
      have hfield := parseField_escapeField f ('\n' :: rest)
        (Or.inr (Or.inr rfl))
      simp only [renderRecord, List.map_cons, List.map_nil, joinComma,
        List.append_assoc, List.singleton_append]
      simp [parseRecordAux, hfield]
    | cons g fs' =>
      have hfield := parseField_escapeField f
        (',' :: (joinComma ((g :: fs').map escapeField) ++ '\n' :: rest))
        (Or.inr (Or.inl rfl))
      have hrec := ih rest fuel (by simp)
        (by simpa using Nat.le_of_succ_le_succ hfuel)
      simp only [renderRecord, List.map_cons, joinComma, List.append_assoc,
        List.cons_append, List.singleton_append] at hfield ⊢
      simp only [renderRecord, List.map_cons, List.append_assoc,
        List.singleton_append] at hrec
      simp [parseRecordAux, hfield, hrec]

/-- A rendered record is at least as long as its field list. -/
theorem length_le_renderRecord (fs : List Cell) :
    fs.length ≤ (renderRecord fs).length := by
  have h : ∀ gs : List Cell,
      gs.length ≤ (joinComma (gs.map escapeField)).length + 1 := by
    intro gs
    induction gs with
    | nil => simp
    | cons f gs ih =>
      cases gs with
      | nil => simp [joinComma]
      | cons g gs' =>
        simp only [List.map_cons, joinComma, List.length_cons,
          List.length_append]
        simp only [List.map_cons, joinComma, List.length_cons] at ih
        omega
  simpa [renderRecord] using h fs

/-- A rendered CSV text is at least as long as its record list. -/
theorem length_le_renderCSV (rs : List (List Cell)) :
    rs.length ≤ (renderCSV rs).length := by
  induction rs with
  | nil => simp [renderCSV]
  | cons r rs ih =>
    have h1 : 1 ≤ (renderRecord r).length := by
      simp [renderRecord]
    simp only [renderCSV, List.map_cons, List.flatten_cons,
      List.length_append, List.length_cons] at ih ⊢
    omega

/-- Reading a rendered CSV text recovers the record list, given enough
fuel, provided every record has at least one field. -/
theorem parseCSVAux_renderCSV (rs : List (List Cell)) (fuel : Nat)
    (hne : ∀ r ∈ rs, r ≠ []) (hfuel : rs.length ≤ fuel) :
    parseCSVAux fuel (renderCSV rs) = rs := by
  induction rs generalizing fuel with
  | nil =>
    cases fuel <;> simp [renderCSV, parseCSVAux]
  | cons r rs ih =>
    obtain ⟨fuel, rfl⟩ : ∃ k, fuel = k + 1 := by
      cases fuel with
      | zero => simp at hfuel
      | succ k => exact ⟨k, rfl⟩
    have hcs : renderCSV (r :: rs) = renderRecord r ++ renderCSV rs := by
      simp [renderCSV]
    have hnonempty : (renderCSV (r :: rs)).isEmpty = false := by
      rw [hcs]
      cases h : renderRecord r with
      | nil => simp [renderRecord] at h
      | cons c cs => simp
    have hlen : r.length ≤ (renderCSV (r :: rs)).length := by
      rw [hcs]
      have := length_le_renderRecord r
      simp only [List.length_append]
      omega
    have hrec := parseRecordAux_renderRecord r (renderCSV rs)
      (renderCSV (r :: rs)).length (hne r (by simp)) hlen
    rw [← hcs] at hrec
    have htail := ih fuel (fun s hs => hne s (List.mem_cons_of_mem _ hs))
      (by simpa using Nat.le_of_succ_le_succ hfuel)
    simp [parseCSVAux, hnonempty, hrec, htail]

/-- Reading back a rendered CSV text recovers its records, provided every
record has at least one field. -/
theorem parseCSV_renderCSV (rs : List (List Cell))
    (hne : ∀ r ∈ rs, r ≠ []) :
    parseCSV (renderCSV rs) = rs :=
  parseCSVAux_renderCSV rs (renderCSV rs).length hne (length_le_renderCSV rs)

/-- Reading back the script's output yields exactly the logical records
of `to_csv`: the header, then one record per row of the archive. -/
theorem parseCSV_output (a : Archive) :
    parseCSV (output a) = csvRecords (to_pandas (read_all a)) := by
  apply parseCSV_renderCSV
  intro r hr
  simp only [csvRecords, List.mem_cons] at hr
  rcases hr with rfl | hr
  · simp
  · obtain ⟨p, _, rfl⟩ := List.mem_map.mp hr
    simp

/-- The cell in row `i` (counting across the concatenated batches) and
column `j` of the archive, when both exist. -/
def cellAt (a : Archive) (i j : Nat) : Option Cell :=
  a.batches.flatten[i]?.bind fun r => r[j]?

/-! ## Claims on the data path -/

/-- C1: for every well-formed archive, the CSV written to the
destination consists of exactly a header record carrying the empty index
name followed by the archive's columns in order, and then exactly one
record per archive row, in order, carrying the zero-based row position
followed by the row's cells. -/
theorem output_matches_archive (a : Archive) (hw : a.WellFormed) :
    parseCSV (output a) =
      (([] : Cell) :: a.schema) ::
        (a.batches.flatten.enum.map fun p => natChars p.1 :: p.2) :=
  parseCSV_output a

/-- C2: reading the produced CSV back into a table and dropping the
added leading index column yields exactly the table materialized from
the archive — same values, same column order, same row order. -/
theorem csv_roundtrip (a : Archive) (hw : a.WellFormed) :
    dropIndexCol (csvToTable (output a)) = read_all a := by
  unfold csvToTable
  rw [parseCSV_output]
  simp only [csvRecords, to_pandas, read_all, dropIndexCol, List.map_map,
    List.drop_succ_cons, List.drop_zero]
  refine congrArg₂ Table.mk rfl ?_
  have h : (List.drop 1 ∘ fun p : Nat × List Cell => natChars p.1 :: p.2)
      = Prod.snd := rfl
  rw [h, List.enum_map_snd]

/-- C5: for a well-formed archive with exactly two columns, the output
CSV has one record per archive row plus the header, and every record has
exactly three fields (index, first column, second column). -/
theorem two_column_shape (a : Archive) (hw : a.WellFormed)
    (h2 : a.schema.length = 2) :
    (parseCSV (output a)).length = a.batches.flatten.length + 1 ∧
      ∀ r ∈ parseCSV (output a), r.length = 3 := by
  rw [parseCSV_output]
  constructor
  · simp [csvRecords, to_pandas, read_all]
  · intro r hr
    simp only [csvRecords, to_pandas, read_all, List.mem_cons] at hr
    rcases hr with rfl | hr
    · simp [h2]
    · obtain ⟨p, hp, rfl⟩ := List.mem_map.mp hr
      have hsnd : p.2 ∈ a.batches.flatten := by
        have := List.mem_map_of_mem Prod.snd hp
        rwa [List.enum_map_snd] at this
      obtain ⟨b, hb, hrb⟩ := List.mem_flatten.mp hsnd
      have := hw b hb p.2 hrb
      simp [this, h2]

/-- C6: the first record of the output is the header, whose first field
is the empty index-column name followed by the column names; the first
field of the `i`-th data record is the decimal rendering of `i`,
starting at 0. -/
theorem header_and_index_start (a : Archive) (hw : a.WellFormed) :
    (parseCSV (output a)).head? = some (([] : Cell) :: a.schema) ∧
      ((parseCSV (output a)).drop 1).map List.head? =
        (List.range a.batches.flatten.length).map fun i => some (natChars i) := by
  rw [parseCSV_output]
  refine ⟨rfl, ?_⟩
  simp only [csvRecords, to_pandas, read_all, List.drop_succ_cons,
    List.drop_zero, List.map_map]
  have h : (List.head? ∘ fun p : Nat × List Cell => natChars p.1 :: p.2)
      = (fun i => some (natChars i)) ∘ Prod.fst := rfl
  rw [h, ← List.map_map, List.enum_map_fst]

/-- C7: a cell value containing a comma is written quoted (wrapped in
double quotes with inner quotes doubled), and reading the CSV back
recovers the original value at the same position (offset by the header
record and the index field). -/
theorem comma_field_quoted_roundtrip (a : Archive) (i j : Nat) (v : Cell)
    (hv : cellAt a i j = some v) (hc : ',' ∈ v) :
    escapeField v = '"' :: (escQuotes v ++ ['"']) ∧
      ((parseCSV (output a))[i + 1]?.bind fun r => r[j + 1]?) = some v := by
  have hq : needsQuote v = true :=
    List.any_eq_true.mpr ⟨',', hc, by simp [specialChar]⟩
  refine ⟨by simp [escapeField, hq], ?_⟩
  obtain ⟨r, hr, hrj⟩ : ∃ r, a.batches.flatten[i]? = some r ∧
      r[j]? = some v := by
    unfold cellAt at hv
    cases h : a.batches.flatten[i]? with
    | none => rw [h] at hv; simp at hv
    | some r =>
      rw [h] at hv
      exact ⟨r, rfl, by simpa using hv⟩
  rw [parseCSV_output]
  simp only [csvRecords, to_pandas, read_all, List.getElem?_cons_succ,
    List.getElem?_map, List.getElem?_enum, hr]
  simpa using hrj

/-- C8: for an archive of several record batches, the data records of
the output, stripped of the index field, are exactly the concatenation
of the record batches in archive order, each in in-batch row order. -/
theorem multi_batch_row_order (a : Archive) (hw : a.WellFormed)
    (hm : 2 ≤ a.batches.length) :
    ((parseCSV (output a)).drop 1).map (List.drop 1) = a.batches.flatten := by
  rw [parseCSV_output]
  simp only [csvRecords, to_pandas, read_all, List.drop_succ_cons,
    List.drop_zero, List.map_map]
  have h : (List.drop 1 ∘ fun p : Nat × List Cell => natChars p.1 :: p.2)
      = Prod.snd := rfl
  rw [h, List.enum_map_snd]

/-- C9: an archive with zero rows (but a schema) produces a CSV with
exactly the header record and no data records. -/
theorem empty_archive_header_only (a : Archive)
    (h : a.batches.flatten = []) :
    parseCSV (output a) = [([] : Cell) :: a.schema] := by
  rw [parseCSV_output]
  simp [csvRecords, to_pandas, read_all, h]

/-! ## Concrete instances for the universally quantified claims -/

/-- A concrete two-column archive: two record batches of one row each;
the second cell of the first row contains a comma. -/
def exA : Archive :=
  { schema := [['A'], ['B']]
    batches := [[[['x'], ['y', ',', 'z']]], [[['u'], ['v']]]] }

/-- A concrete two-column archive with a schema but no rows. -/
def exEmpty : Archive :=
  { schema := [['A'], ['B']], batches := [] }

/-- C1 (witness): the claim instantiated at the concrete archive
`exA`. -/
theorem output_matches_archive_w :
    parseCSV (output exA) =
      (([] : Cell) :: exA.schema) ::
        (exA.batches.flatten.enum.map fun p => natChars p.1 :: p.2) :=
  output_matches_archive exA (by decide)

/-- C2 (witness): the round trip at the concrete archive `exA`. -/
theorem csv_roundtrip_w :
    dropIndexCol (csvToTable (output exA)) = read_all exA :=
  csv_roundtrip exA (by decide)

/-- C5 (witness): the record and field counts at the concrete two-column
archive `exA`. -/
theorem two_column_shape_w :
    (parseCSV (output exA)).length = exA.batches.flatten.length + 1 ∧
      ∀ r ∈ parseCSV (output exA), r.length = 3 :=
  two_column_shape exA (by decide) (by decide)

/-- C6 (witness): header shape and index start at the concrete archive
`exA`. -/
theorem header_and_index_start_w :
    (parseCSV (output exA)).head? = some (([] : Cell) :: exA.schema) ∧
      ((parseCSV (output exA)).drop 1).map List.head? =
        (List.range exA.batches.flatten.length).map
          fun i => some (natChars i) :=
  header_and_index_start exA (by decide)

/-- C7 (witness): the comma-carrying cell of `exA` (row 0, column 1) is
quoted and read back intact. -/
theorem comma_field_quoted_roundtrip_w :
    escapeField ['y', ',', 'z'] =
        '"' :: (escQuotes ['y', ',', 'z'] ++ ['"']) ∧
      ((parseCSV (output exA))[0 + 1]?.bind fun r => r[1 + 1]?) =
        some ['y', ',', 'z'] :=
  comma_field_quoted_roundtrip exA 0 1 ['y', ',', 'z'] (by decide) (by decide)

/-- C8 (witness): row order across the two batches of `exA`. -/
theorem multi_batch_row_order_w :
    ((parseCSV (output exA)).drop 1).map (List.drop 1) =
      exA.batches.flatten :=
  multi_batch_row_order exA (by decide) (by decide)

/-- C9 (witness): the zero-row archive `exEmpty` yields only the header
record. -/
theorem empty_archive_header_only_w :
    parseCSV (output exEmpty) = [([] : Cell) :: exEmpty.schema] :=
  empty_archive_header_only exEmpty (by decide)

/-! ## Process model: file state, environment, events -/

/-- What the script finds at the fixed source path
`./Dataset.hf/train/data-00000-of-00001.arrow`. -/
inductive SourceFile where
  /-- no file exists at the source path (`open` raises) -/
  | missing : SourceFile
  /-- a file exists but its bytes are not a well-formed stream-framed
  archive (the stream reader raises before any write) -/
  | malformed : SourceFile
  /-- a file exists and decodes as the archive `a` -/
  | wellFormed (a : Archive) : SourceFile
deriving DecidableEq

/-- The file state the script touches: the source path's content and the
destination path `./DataBase.csv`'s content (`none` = file absent). -/
structure FileState where
  source : SourceFile
  dest : Option (List Char)
deriving DecidableEq

/-- Run-dependent ambient state the script could in principle observe but
never reads: `readingData.py` consults no clock, no randomness source and
no environment variable. -/
structure Env where
  time : Nat
  randomSeed : Nat
  environ : List (Cell × Cell)

/-- One run of `readingData.py`: returns whether the process exits
successfully together with the resulting file state.  A missing source
file makes `open` (line 6) raise and a malformed archive makes the
stream reader (lines 7/11) raise; in both cases the uncaught exception
terminates the process before `to_csv` runs, leaving the destination
untouched.  On a well-formed archive the destination is created or
overwritten with the CSV text. -/
def run (env : Env) (fs : FileState) : Bool × FileState :=
  match fs.source with
  | .missing => (false, fs)
  | .malformed => (false, fs)
  | .wellFormed a => (true, { fs with dest := some (output a) })

/-- The externally visible I/O events of one successful run, in program
order. -/
inductive Event where
  /-- line 6: `open(dataPath, 'rb')` -/
  | openSrc : Event
  /-- line 11: `reader.read_all()` consumes every record batch -/
  | readAllBatches : Event
  /-- line 16: `df.to_csv("./DataBase.csv")` writes the destination -/
  | writeDest : Event
  /-- exit of the `with` block (after line 16): the source handle is
  released -/
  | closeSrc : Event
deriving DecidableEq, BEq

/-- The event trace of a successful run of `readingData.py`.  The call
`df.to_csv(...)` on line 16 is inside the `with open(dataPath, 'rb')`
block that starts on line 6, so the source handle is released only when
the block is exited, after the write. -/
def programTrace : List Event :=
  [Event.openSrc, Event.readAllBatches, Event.writeDest, Event.closeSrc]

/-- The ordering property asserted by the spec: the source handle is
released before the write to the destination begins. -/
def handleClosedBeforeWrite : Prop :=
  programTrace.indexOf Event.closeSrc < programTrace.indexOf Event.writeDest

instance : Decidable handleClosedBeforeWrite := by
  unfold handleClosedBeforeWrite
  infer_instance

/-! ## Claims on the process model -/

/-- C3 (counterexample): the claim that the source handle is released
before any write to the destination begins is false of the program:
`df.to_csv` on line 16 executes inside the `with` block opened on
line 6, so the write happens while the source handle is still open. -/
theorem close_before_write_false : ¬ handleClosedBeforeWrite := by
  decide

/-- C3 (amended): the source handle is released after all record batches
have been read and after the write to the destination completes, at the
exit of the `with` block; the write begins while the handle is still
open. -/
theorem read_then_write_then_close :
    programTrace.indexOf Event.readAllBatches <
        programTrace.indexOf Event.writeDest ∧
      programTrace.indexOf Event.writeDest <
        programTrace.indexOf Event.closeSrc := by
  decide

/-- C4: if no file exists at the fixed source path, the run terminates
with a failure indication and the destination file is neither created
nor modified. -/
theorem missing_source_fails_dest_untouched (env : Env) (fs : FileState)
    (h : fs.source = SourceFile.missing) :
    (run env fs).1 = false ∧ (run env fs).2.dest = fs.dest := by
  simp [run, h]

/-- C4 (witness): the theorem instantiated at a concrete file state with
a missing source and an existing destination file. -/
theorem missing_source_fails_dest_untouched_w :
    (run ⟨0, 0, []⟩ ⟨SourceFile.missing, some ['x']⟩).1 = false ∧
      (run ⟨0, 0, []⟩ ⟨SourceFile.missing, some ['x']⟩).2.dest = some ['x'] :=
  missing_source_fails_dest_untouched ⟨0, 0, []⟩
    ⟨SourceFile.missing, some ['x']⟩ rfl

/-- C10: the converter is deterministic — the run's outcome depends only
on the file state (in particular on the source bytes), not on time,
randomness or environment variables: two runs under arbitrary ambient
environments produce identical results. -/
theorem run_deterministic (e₁ e₂ : Env) (fs : FileState) :
    run e₁ fs = run e₂ fs := rfl
